import Mathlib

/-!
Verification of the TurboNano editor core against its specification.

The development shallowly embeds the JavaScript sources:
* `src/models/EditFile.js` — the line-array text buffer,
* `src/models/windows/EditWindow.js` — the cursor/viewport controller,
* `src/services/WindowService.js` (`recalculateLayout`) — the pane layout,
* `src/services/NanorcService.js` — the syntax-highlight matcher,
* `src/unnamed/part_010` (`IndentationService`) — indentation arithmetic.

JavaScript lines are modelled as `List Char` (one JS UTF-16 code unit per
`Char`; the sources only manipulate lines character-wise, never by code
point, so the identification is exact on the inputs considered here).
JavaScript numbers that hold integers are modelled as `Int`; the few
floating-point operations in the sources (`Math.floor(h * 0.9)`,
`Math.floor(h / 2)`, `Math.ceil((c+1)/s)`) are exact on the integer ranges
a terminal can produce and are modelled by exact integer division, as noted
at each definition.

Array and string primitives (`a[i]`, `a[i] = v`, `splice`, `slice`) are
modelled with JavaScript's documented index clamping so that every
embedded operation is total; `undefined` reads are modelled as `Option`.
-/

namespace TurboNano

/-- One buffer line: a JavaScript string as a list of its code units. -/
abbrev Line := List Char

/-- The `fileData` array of an `EditFile`: a JavaScript array of strings. -/
abbrev Buffer := List Line

/-- JavaScript index clamping used by `Array.prototype.splice` and
`String.prototype.slice`: a negative index counts from the end (clamped to
0), a positive one is clamped to the length. -/
def jsIdx (len : Nat) (i : Int) : Nat :=
  if i < 0 then ((len : Int) + i).toNat else min i.toNat len

/-- JavaScript `s.slice(a, b)` on a string. -/
def jsSlice (s : Line) (a b : Int) : Line :=
  (s.take (jsIdx s.length b)).drop (jsIdx s.length a)

/-- JavaScript one-argument `s.slice(a)` (up to the end of the string). -/
def jsSliceFrom (s : Line) (a : Int) : Line :=
  jsSlice s a (s.length : Int)

/-- JavaScript array read `arr[i]`; `none` models `undefined`. -/
def jsGet (l : Buffer) (i : Int) : Option Line :=
  if 0 ≤ i then l.get? i.toNat else none

/-- JavaScript `arr[i] || ''` — the read with the empty-string default the
sources use. -/
def jsGetD (l : Buffer) (i : Int) : Line :=
  (jsGet l i).getD []

/-- JavaScript array write `arr[i] = v`.  A negative `i` is a plain property
assignment and leaves the array untouched; `i ≥ length` extends the array
(JavaScript leaves holes that read back as `undefined`; the editor never
reads such a hole, and the holes are modelled as empty lines). -/
def jsSet (l : Buffer) (i : Int) (v : Line) : Buffer :=
  if i < 0 then l
  else if i.toNat < l.length then l.set i.toNat v
  else l ++ List.replicate (i.toNat - l.length) [] ++ [v]

/-- JavaScript `arr.splice(i, 1)`: remove one element at the clamped index
(no element is removed when the clamped index is past the end). -/
def jsSpliceRemove1 (l : Buffer) (i : Int) : Buffer :=
  l.take (jsIdx l.length i) ++ l.drop (jsIdx l.length i + 1)

/-- JavaScript `arr.splice(i, 0, v)`: insert `v` at the clamped index. -/
def jsSpliceInsert (l : Buffer) (i : Int) (v : Line) : Buffer :=
  l.take (jsIdx l.length i) ++ v :: l.drop (jsIdx l.length i)

/-! ### `EditFile` (src/models/EditFile.js) -/

/-- The `while (this.fileData.length <= y) this.fileData.push('')` loop of
`EditFile._ensureLineExists`. -/
def ensureLineExists (fileData : Buffer) (y : Int) : Buffer :=
  if (fileData.length : Int) ≤ y then
    fileData ++ List.replicate ((y + 1 - fileData.length).toNat) []
  else fileData

/-- The `while (this.fileData[y].length < x) this.fileData[y] += ' '` loop of
`EditFile._ensureCharacterExists` applied to one line. -/
def padSpaces (line : Line) (x : Int) : Line :=
  line ++ List.replicate ((x - line.length).toNat) ' '

/-- `EditFile._ensureCharacterExists(x, y)`: ensure the line exists, then pad
it with spaces up to column `x`.  For `y < 0` the JavaScript code dereferences
`undefined` and throws before mutating anything; that case is handled by the
caller (`writeText`). -/
def ensureCharacterExists (fileData : Buffer) (x y : Int) : Buffer :=
  let fd := ensureLineExists fileData y
  jsSet fd y (padSpaces (jsGetD fd y) x)

/-- `EditFile.writeText(text, x, y, insert)`.  When `y < 0` the JavaScript
code throws a `TypeError` inside `_ensureCharacterExists` before any
mutation, so the buffer is returned unchanged. -/
def writeText (fileData : Buffer) (text : Line) (x y : Int) (insert : Bool) : Buffer :=
  if y < 0 then fileData
  else
    let fd := ensureCharacterExists fileData x y
    let line := jsGetD fd y
    if insert then
      jsSet fd y (jsSlice line 0 x ++ text ++ jsSliceFrom line x)
    else
      jsSet fd y (jsSlice line 0 x ++ text ++ jsSliceFrom line (x + (text.length : Int)))

/-- Modelled from the spec: `deleteChar(column, row)` is called by the cursor
controller (`EditWindow._handleBackspace` / `_handleDelete`) but its
definition is missing from the `EditFile` source in the repository (only its
callers and test mocks appear).  The spec says: "removes one character at
`column` on `lines[row]`; no-op error if out of bounds (fails silently for
callers that pre-validate)". -/
def deleteChar (fileData : Buffer) (x y : Int) : Buffer :=
  match jsGet fileData y with
  | none => fileData
  | some line =>
      if 0 ≤ x ∧ x < (line.length : Int) then
        jsSet fileData y (line.take x.toNat ++ line.drop (x.toNat + 1))
      else fileData

/-! ### `EditWindow` (src/models/windows/EditWindow.js)

The cursor/viewport controller state.  `editorHeight` (the height of the
content area, `element.height - 2`) depends on the blessed UI element, so the
handlers that use it take it as an explicit parameter `h`. -/

structure EditWindowState where
  fileData : Buffer
  cursorX : Int
  cursorY : Int
  scrollOffsetX : Int
  scrollOffsetY : Int
deriving Repr, DecidableEq

/-- `EditWindow._getAbsolutePosition().x`. -/
def posX (st : EditWindowState) : Int := st.cursorX + st.scrollOffsetX

/-- `EditWindow._getAbsolutePosition().y`. -/
def posY (st : EditWindowState) : Int := st.cursorY + st.scrollOffsetY

/-- `EditWindow._adjustScrollForCursor()`, with the content height `h`. -/
def adjustScrollForCursor (h : Int) (st : EditWindowState) : EditWindowState :=
  let visibleBottom := st.scrollOffsetY + h - 1
  if visibleBottom < st.cursorY then
    let newScroll := min (st.cursorY - h + 1) (max 0 ((st.fileData.length : Int) - h))
    { st with scrollOffsetY := newScroll }
  else if st.cursorY < st.scrollOffsetY then
    { st with scrollOffsetY := max 0 st.cursorY }
  else st

/-- `EditWindow._handleBackspace()`.  The two joins read
`fileData[pos.y]` / `fileData[pos.y - 1]` before splicing; when one of them
is `undefined` the later `.length` access throws (the exception is caught in
`press`), so only the mutations that precede the throw take effect. -/
def handleBackspace (st : EditWindowState) : EditWindowState :=
  let x := posX st
  let y := posY st
  if 0 < x then
    { st with fileData := deleteChar st.fileData (x - 1) y, cursorX := st.cursorX - 1 }
  else if 0 < y then
    match jsGet st.fileData (y - 1) with
    | none => st
    | some prev =>
        match jsGet st.fileData y with
        | none =>
            -- `splice(pos.y, 1)` removed nothing (index past the end), the
            -- cursor was updated, then `currentLine.length` threw.
            { st with cursorX := (prev.length : Int), cursorY := st.cursorY - 1 }
        | some cur =>
            let fd := jsSpliceRemove1 st.fileData y
            let fd := if 0 < cur.length then jsSet fd (y - 1) (prev ++ cur) else fd
            { st with fileData := fd, cursorX := (prev.length : Int), cursorY := st.cursorY - 1 }
  else st

/-- `EditWindow._handleDelete()`.  Reading `fileData[pos.y].length` with
`pos.y` out of range throws before any mutation. -/
def handleDelete (st : EditWindowState) : EditWindowState :=
  let x := posX st
  let y := posY st
  match jsGet st.fileData y with
  | none => st
  | some cur =>
      if x < (cur.length : Int) then
        { st with fileData := deleteChar st.fileData x y }
      else if y < (st.fileData.length : Int) - 1 then
        let nxt := jsGetD st.fileData (y + 1)
        let fd := jsSpliceRemove1 st.fileData (y + 1)
        let fd := if 0 < nxt.length then jsSet fd y (cur ++ nxt) else fd
        { st with fileData := fd }
      else st

/-- The `.replace(/[\r\n]/g, '')` cleanups in `_handleEnter`. -/
def removeCRLF (l : Line) : Line :=
  l.filter (fun c => !(c = '\r' || c = '\n'))

/-- `EditWindow._handleEnter()`, with the content height `h`.  Note that it
splits at `this.cursorX` / `this.cursorY`, not at the scroll-adjusted
absolute position. -/
def handleEnter (h : Int) (st : EditWindowState) : EditWindowState :=
  let cur := jsGetD st.fileData st.cursorY
  let beforeCursor := removeCRLF (jsSlice cur 0 st.cursorX)
  let afterCursor := removeCRLF (jsSliceFrom cur st.cursorX)
  let fd := jsSet st.fileData st.cursorY beforeCursor
  let fd := jsSpliceInsert fd (st.cursorY + 1) afterCursor
  adjustScrollForCursor h
    { st with fileData := fd, cursorY := st.cursorY + 1, cursorX := 0 }

/-- Character input: the `!eventFound && key.sequence` branch of
`EditWindow.press`.  `writeText` throws (without mutating) when the absolute
row is negative, in which case `cursorX++` is not reached. -/
def pressChar (insert : Bool) (seq : Line) (st : EditWindowState) : EditWindowState :=
  if posY st < 0 then st
  else
    { st with fileData := writeText st.fileData seq (posX st) (posY st) insert,
              cursorX := st.cursorX + 1 }

/-- Strip one trailing `'\r'` (used to model splitting on `/\r?\n/`). -/
def dropCR (l : Line) : Line :=
  if l.getLast? = some '\r' then l.dropLast else l

/-- Apply `dropCR` to every piece except the last one. -/
def dropCRInit : List Line → List Line
  | [] => []
  | [l] => [l]
  | l :: rest => dropCR l :: dropCRInit rest

/-- JavaScript `clipboardText.split(/\r?\n/)`: split on `'\n'`, consuming a
`'\r'` that directly precedes it. -/
def splitCRLF (s : Line) : List Line :=
  dropCRInit (s.splitOn '\n')

/-- The insertion loop of `_handlePaste`:
`for i: splice(pos.y + i + 1, 0, remaining[i] + (last ? afterCursor : ''))`. -/
def pasteInsertAux (fd : Buffer) (base : Int) (i : Int) (rem : List Line) (afterCursor : Line) : Buffer :=
  match rem with
  | [] => fd
  | l :: rest =>
      let lineContent := l ++ (if rest.isEmpty then afterCursor else [])
      pasteInsertAux (jsSpliceInsert fd (base + i + 1) lineContent) base (i + 1) rest afterCursor

/-- `EditWindow._handlePaste()` with the clipboard payload `clip`, the
buffer's insert mode and the content height `h`.  In the single-line branch
a negative absolute row makes `writeText` throw; `_handlePaste`'s own
`try`/`catch` then skips the cursor update and the scroll correction, so
the state is unchanged (`writeText` throws before mutating on that path). -/
def handlePaste (h : Int) (insert : Bool) (clip : Line) (st : EditWindowState) : EditWindowState :=
  if clip.length = 0 then st
  else
    let lines := splitCRLF clip
    let x := posX st
    let y := posY st
    if lines.length = 1 then
      if y < 0 then st
      else
        adjustScrollForCursor h
          { st with fileData := writeText st.fileData clip x y insert,
                    cursorX := st.cursorX + (clip.length : Int) }
    else
      let firstLine := lines.headD []
      let remainingLines := lines.tail
      let currentLine := jsGetD st.fileData y
      let beforeCursor := jsSlice currentLine 0 x
      let afterCursor := jsSliceFrom currentLine x
      let fd := jsSet st.fileData y (beforeCursor ++ firstLine)
      let fd := pasteInsertAux fd y 0 remainingLines afterCursor
      let newX := match remainingLines.getLast? with
        | some l => (l.length : Int)
        | none => st.cursorX + (firstLine.length : Int)
      adjustScrollForCursor h
        { st with fileData := fd,
                  cursorY := st.cursorY + (remainingLines.length : Int),
                  cursorX := newX }

/-- `Math.floor(editorHeight * 0.9)` rounded through `Math.max(1, ·)`; the
floating-point product is exact (`floor(h * 0.9) = ⌊9h/10⌋`) for every `h` a
terminal can produce, so it is modelled by flooring integer division. -/
def pageStep (h : Int) : Int :=
  max 1 (Int.ediv (9 * h) 10)

/-- `EditWindow._handlePageUp()` with the content height `h`;
`Math.floor(editorHeight / 2)` is the flooring division `Int.ediv h 2`. -/
def handlePageUp (h : Int) (st : EditWindowState) : EditWindowState :=
  let newY := max 0 (st.cursorY - pageStep h)
  let targetLine := jsGetD st.fileData newY
  let newScroll := max 0 (newY - Int.ediv h 2)
  { st with cursorX := min st.cursorX (targetLine.length : Int),
            cursorY := newY,
            scrollOffsetY := newScroll }

/-- `EditWindow._handlePageDown()` with the content height `h`. -/
def handlePageDown (h : Int) (st : EditWindowState) : EditWindowState :=
  let lastLine := (st.fileData.length : Int) - 1
  let newY := min lastLine (st.cursorY + pageStep h)
  let targetLine := jsGetD st.fileData newY
  let maxScroll := max 0 ((st.fileData.length : Int) - h)
  let newScroll := min maxScroll (newY - Int.ediv h 2)
  { st with cursorX := min st.cursorX (targetLine.length : Int),
            cursorY := newY,
            scrollOffsetY := newScroll }

/-- The editing operations of the claim about line-count preservation:
literal input and direct `writeText`, backspace, delete, enter and paste.
`enter` and `paste` carry the content height, `paste` and the write
operations the insert-mode flag. -/
inductive EditOp where
  | write (text : Line) (x y : Int) (insert : Bool)
  | char (seq : Line) (insert : Bool)
  | backspace
  | del
  | enter (h : Int)
  | paste (clip : Line) (insert : Bool) (h : Int)

/-- Apply one editing operation to the controller state. -/
def applyOp (op : EditOp) (st : EditWindowState) : EditWindowState :=
  match op with
  | .write text x y insert => { st with fileData := writeText st.fileData text x y insert }
  | .char seq insert => pressChar insert seq st
  | .backspace => handleBackspace st
  | .del => handleDelete st
  | .enter h => handleEnter h st
  | .paste clip insert h => handlePaste h insert clip st

/-- Apply a sequence of editing operations in order. -/
def applyOps (ops : List EditOp) (st : EditWindowState) : EditWindowState :=
  ops.foldl (fun s op => applyOp op s) st

/-! ### Pane layout (src/services/WindowService.js, `recalculateLayout`) -/

/-- The three window classes `recalculateLayout` distinguishes with
`instanceof`: `FileExplorer`, `AIPrompt`, and everything else. -/
inductive WinKind where
  | fileExplorer
  | aiPrompt
  | other
deriving Repr, DecidableEq

/-- One entry of `this.windows` as the layout sees it: its class and its
optional requested `width` / `height` (`null` means "fill"). -/
structure WinDesc where
  kind : WinKind
  width : Option Int := none
  height : Option Int := none
deriving Repr, DecidableEq

/-- A computed screen rectangle (`element.left/top/width/height`). -/
structure Rect where
  left : Int
  top : Int
  width : Int
  height : Int
deriving Repr, DecidableEq

/-- The running `fileExplorerWidth`: `window.width || 30` of each
`FileExplorer` in order (the last one read wins), `0` when there is none. -/
def feWidth (wins : List WinDesc) : Int :=
  wins.foldl (fun acc w => if w.kind = .fileExplorer then w.width.getD 30 else acc) 0

/-- The running `aiPromptHeight`: `window.height || 3` of each `AIPrompt` in
order, `0` when there is none. -/
def aiHeight (wins : List WinDesc) : Int :=
  wins.foldl (fun acc w => if w.kind = .aiPrompt then w.height.getD 3 else acc) 0

/-- The rectangle `recalculateLayout` assigns to one window, given the screen
size, the menu-bar height and the whole pane set. -/
def rectFor (screenW screenH menuBarHeight : Int) (wins : List WinDesc) (w : WinDesc) : Rect :=
  match w.kind with
  | .fileExplorer =>
      { left := 0, top := menuBarHeight,
        width := w.width.getD 30, height := screenH - menuBarHeight }
  | .aiPrompt =>
      let hgt := w.height.getD 3
      { left := feWidth wins, top := screenH - hgt,
        width := screenW - feWidth wins, height := hgt }
  | .other =>
      let hasFE := wins.any (fun v => v.kind = .fileExplorer)
      let hasAI := wins.any (fun v => v.kind = .aiPrompt)
      { left := if hasFE then feWidth wins else 0,
        top := menuBarHeight,
        width := if hasFE then screenW - feWidth wins else screenW,
        height := if hasAI then screenH - menuBarHeight - aiHeight wins
                  else screenH - menuBarHeight }

/-- `WindowService.recalculateLayout()`: the rectangles of all panes, in the
order of `this.windows`. -/
def recalculateLayout (screenW screenH menuBarHeight : Int) (wins : List WinDesc) : List Rect :=
  wins.map (rectFor screenW screenH menuBarHeight wins)

/-! ### `IndentationService` (src/unnamed/part_010) -/

/-- `IndentationService.getIndentation(column)` in tabs-as-spaces mode
(`editor.useTabs` false) with the configured `editor.indentSize`.
`Math.ceil((column + 1) / indentSize)` is exact on terminal-sized integers
and is modelled by ceiling division. -/
def getIndentation (indentSize : Nat) (column : Nat) : Line :=
  let nextStop := ((column + 1 + indentSize - 1) / indentSize) * indentSize
  let spacesNeeded := nextStop - column
  List.replicate spacesNeeded ' '

/-- `IndentationService.getIndentation(column)` with `editor.useTabs` true:
always a single tab character. -/
def getIndentationTabs : Line := ['\t']

/-! ### Syntax highlighting (src/services/NanorcService.js) -/

/-- `NanorcService._mapColorToCompatible`: the fixed substitution table for
"bright" colors. -/
def mapColorToCompatible (color : Line) : Line :=
  if color = ("brightwhite").toList then ("white").toList
  else if color = ("brightcyan").toList then ("cyan").toList
  else if color = ("brightblue").toList then ("blue").toList
  else if color = ("brightred").toList then ("red").toList
  else if color = ("brightgreen").toList then ("green").toList
  else if color = ("brightyellow").toList then ("yellow").toList
  else if color = ("brightmagenta").toList then ("magenta").toList
  else if color = ("brightblack").toList then ("black").toList
  else color

/-- One match record of `NanorcService.style`: `{start, end, text, color}`
(`end` is a reserved word in Lean and is called `stop` here). -/
structure HMatch where
  start : Nat
  stop : Nat
  text : Line
  color : Line
deriving Repr, DecidableEq

/-- The match-collection loop of `style`: run every rule's pattern over the
line (the host regex engine is the external collaborator `execRule`),
discard zero-length matches, record start/end/text and the remapped color.
`execRule pat line` returns the global-exec match list as
`(match.index, match[0])` pairs. -/
def collectMatches (execRule : Line → Line → List (Nat × Line))
    (patterns : List (Line × Line)) (line : Line) : List HMatch :=
  patterns.flatMap (fun pc =>
    (execRule pc.1 line).filterMap (fun m =>
      if m.2.length = 0 then none
      else some { start := m.1, stop := m.1 + m.2.length, text := m.2,
                  color := mapColorToCompatible pc.2 }))

/-- The comparator of `matches.sort((a, b) => ...)`: ascending `start`,
ties broken by descending length. -/
def matchLE (a b : HMatch) : Bool :=
  decide (a.start < b.start) ||
    (decide (a.start = b.start) && decide (b.stop - b.start ≤ a.stop - a.start))

/-- Insert a match in front of the first element it compares
less-than-or-equal to (the stable insertion step). -/
def insertMatch (a : HMatch) : List HMatch → List HMatch
  | [] => [a]
  | b :: rest => if matchLE a b then a :: b :: rest else b :: insertMatch a rest

/-- The `matches.sort(...)` call.  The host runtime's sort is stable and the
comparator is consistent, so its result is the unique stably-sorted
permutation; it is computed here by a stable insertion sort. -/
def sortMatches (ms : List HMatch) : List HMatch :=
  ms.foldr insertMatch []

/-- The overlap test of the greedy selection:
`match.start < range.end && match.end > range.start`. -/
def overlapsRange (m : HMatch) (r : Nat × Nat) : Bool :=
  decide (m.start < r.2) && decide (r.1 < m.stop)

/-- The greedy left-to-right selection loop over the sorted matches, carrying
the `usedRanges` accumulator. -/
def selectAux : List HMatch → List (Nat × Nat) → List HMatch
  | [], _ => []
  | m :: rest, used =>
      if used.any (overlapsRange m) then selectAux rest used
      else m :: selectAux rest (used ++ [(m.start, m.stop)])

/-- `nonOverlappingMatches` as computed by `style`. -/
def selectNonOverlapping (ms : List HMatch) : List HMatch :=
  selectAux ms []

/-- The accepted spans of `style` for one line: collect, sort, then greedily
select non-overlapping matches. -/
def styleMatchesWith (execRule : Line → Line → List (Nat × Line))
    (patterns : List (Line × Line)) (line : Line) : List HMatch :=
  selectNonOverlapping (sortMatches (collectMatches execRule patterns line))

/-- Global exec of a literal (metacharacter-free) pattern by the host regex
engine: leftmost matches, `lastIndex` advancing past each match
(non-overlapping). The fuel is `line.length + 1`, enough for every starting
position. -/
def execLiteralFrom : Nat → Line → Line → Nat → List (Nat × Line)
  | 0, _, _, _ => []
  | f + 1, pat, line, i =>
      if i + pat.length ≤ line.length ∧ pat ≠ [] ∧ (line.drop i).take pat.length = pat then
        (i, pat) :: execLiteralFrom f pat line (i + pat.length)
      else if i < line.length then execLiteralFrom f pat line (i + 1)
      else []

/-- Global exec of a literal pattern, starting at `lastIndex = 0`. -/
def execLiteral (pat line : Line) : List (Nat × Line) :=
  execLiteralFrom (line.length + 1) pat line 0

/-- Two spans are disjoint as half-open intervals. -/
def SpanDisjoint (a b : HMatch) : Prop :=
  a.stop ≤ b.start ∨ b.stop ≤ a.start

/-! ### Nanorc pattern conversion (`NanorcService._convertNanorcRegex`)

The validity test `new RegExp(p)` of the host engine is the external
collaborator; it is modelled by an oracle `validRegex : Line → Bool`.
Characters that are delicate to write as literals are given by code point. -/

/-- Double-quote character. -/
def qd : Char := Char.ofNat 34

/-- Single-quote character. -/
def qs : Char := Char.ofNat 39

/-- Backtick character. -/
def bq : Char := Char.ofNat 96

/-- Opening-brace character. -/
def obr : Char := Char.ofNat 123

/-- Closing-brace character. -/
def cbr : Char := Char.ofNat 125

/-- The predefined replacement for double-quoted string rules. -/
def dqPat : Line := [qd, '[', '^', qd, ']', '*', qd]

/-- The predefined replacement for single-quoted string rules. -/
def sqPat : Line := [qs, '[', '^', qs, ']', '*', qs]

/-- The predefined replacement for backtick string rules. -/
def btPat : Line := [bq, '[', '^', bq, ']', '*', bq]

/-- The escaped double-quote pattern the conversion looks for. -/
def escDqPat : Line := ['\\', qd, '[', '^', '\\', qd, ']', '*', '\\', qd]

/-- The escaped single-quote pattern the conversion looks for. -/
def escSqPat : Line := ['\\', qs, '[', '^', '\\', qs, ']', '*', '\\', qs]

/-- The generic bare-word fallback pattern `\b\w+\b`. -/
def bareWordPat : Line := ['\\', 'b', '\\', 'w', '+', '\\', 'b']

/-- JavaScript `String.prototype.replace` with a global literal pattern:
non-overlapping replacements, left to right. -/
def replaceAll (target repl : Line) : Line → Line
  | [] => []
  | c :: rest =>
      if h : target ≠ [] ∧ target.isPrefixOf (c :: rest) then
        repl ++ replaceAll target repl ((c :: rest).drop target.length)
      else c :: replaceAll target repl rest
termination_by l => l.length
decreasing_by
  · simp only [List.length_drop, List.length_cons]
    have : 0 < target.length := List.length_pos.mpr h.1
    omega
  · simp

theorem dropWhile_length_le (p : Char → Bool) (l : Line) :
    (l.dropWhile p).length ≤ l.length := by
  induction l with
  | nil => simp
  | cons c rest ih =>
      by_cases h : p c
      · simp only [List.dropWhile, h]
        exact Nat.le_succ_of_le ih
      · simp [List.dropWhile, h]

/-- The ASCII part of the host regex dialect's `\s` class (the patterns in
rule files are ASCII). -/
def isJsWs (c : Char) : Bool :=
  c = ' ' || c = '\t' || c = '\n' || c = '\r' || c = Char.ofNat 11 || c = Char.ofNat 12

/-- The host regex dialect's `\w` class. -/
def isWordChar (c : Char) : Bool :=
  c.isAlpha || c.isDigit || c = '_'

/-- `.replace(/\\\s*$/g, '')`: remove a trailing backslash together with the
whitespace that follows it (matches only when everything after the backslash
is whitespace). -/
def stripBackslashWsEnd (l : Line) : Line :=
  let t := (l.reverse.dropWhile isJsWs).reverse
  if t.getLast? = some '\\' then t.dropLast else l

/-- Parse `\s*\)` at the head of the list, returning the consumed group and
the remainder. -/
def takeWsParen (l : Line) : Option (Line × Line) :=
  match h : l.dropWhile isJsWs with
  | ')' :: rest => some (l.takeWhile isJsWs ++ [')'], rest)
  | _ => none

theorem takeWsParen_length {l : Line} {g : Line × Line}
    (h : takeWsParen l = some g) : g.2.length < l.length := by
  unfold takeWsParen at h
  split at h
  case _ rest heq =>
    cases h
    have h1 : (l.dropWhile isJsWs).length ≤ l.length := dropWhile_length_le isJsWs l
    rw [heq] at h1
    simpa using Nat.lt_of_lt_of_le (Nat.lt_succ_self rest.length) h1
  case _ => exact absurd h (by simp)

/-- `.replace(/\|(\s*\))/g, '$1')`: drop a `'|'` that directly precedes
optional whitespace and a closing parenthesis. -/
def fixPipeParen : Line → Line
  | [] => []
  | c :: rest =>
      if c = '|' then
        match h : takeWsParen rest with
        | some g => g.1 ++ fixPipeParen g.2
        | none => c :: fixPipeParen rest
      else c :: fixPipeParen rest
termination_by l => l.length
decreasing_by
  · have := takeWsParen_length h
    simp only [List.length_cons]
    omega
  · simp
  · simp

/-- The symbol character class of the `^[;\{\}\[\]\(\)=:,.<>+\-*\/%&|^!~?]+$`
test. -/
def isSymbolChar (c : Char) : Bool :=
  c = ';' || c = obr || c = cbr || c = '[' || c = ']' || c = '(' || c = ')' ||
  c = '=' || c = ':' || c = ',' || c = '.' || c = '<' || c = '>' || c = '+' ||
  c = '-' || c = '*' || c = '/' || c = '%' || c = '&' || c = '|' || c = '^' ||
  c = '!' || c = '~' || c = '?'

/-- The "operators and symbols" special case: the whole pattern consists of
symbol characters. -/
def isSymbolOnly (l : Line) : Bool :=
  !l.isEmpty && l.all isSymbolChar

/-- The character class escaped by the symbols special case
(`([(){}\[\].+*?^$\\])` → `\\$1`). -/
def needsEscape (c : Char) : Bool :=
  c = '(' || c = ')' || c = obr || c = cbr || c = '[' || c = ']' || c = '.' ||
  c = '+' || c = '*' || c = '?' || c = '^' || c = '$' || c = '\\'

/-- `pattern.replace(/([(){}\[\].+*?^$\\])/g, '\\$1')`. -/
def escapeSymbols (l : Line) : Line :=
  l.flatMap (fun c => if needsEscape c then ['\\', c] else [c])

/-- Parse one POSIX class `[[:word:]]` at the head of the list, returning
the remainder after it. -/
def matchPosixAt (l : Line) : Option Line :=
  match l with
  | '[' :: '[' :: ':' :: rest =>
      if (rest.takeWhile isWordChar).isEmpty then none
      else
        match rest.dropWhile isWordChar with
        | ':' :: ']' :: ']' :: r => some r
        | _ => none
  | _ => none

theorem matchPosixAt_length {l r : Line}
    (h : matchPosixAt l = some r) : r.length < l.length := by
  unfold matchPosixAt at h
  split at h
  case _ rest =>
    split at h
    case _ => exact absurd h (by simp)
    case _ =>
      split at h
      case _ r' heq =>
        cases h
        have h1 : (rest.dropWhile isWordChar).length ≤ rest.length :=
          dropWhile_length_le isWordChar rest
        rw [heq] at h1
        simp only [List.length_cons] at h1 ⊢
        omega
      case _ => exact absurd h (by simp)
  case _ => exact absurd h (by simp)

/-- `.replace(/\[\[:(\w+):\]\]/g, '')` of the simplified-pattern fallback. -/
def stripPosixClasses : Line → Line
  | [] => []
  | c :: rest =>
      match h : matchPosixAt (c :: rest) with
      | some r => stripPosixClasses r
      | none => c :: stripPosixClasses rest
termination_by l => l.length
decreasing_by
  · exact matchPosixAt_length h
  · simp

/-- `.replace(/\\\W/g, '')` of the simplified-pattern fallback: remove each
backslash-escaped non-word character. -/
def stripEscapedNonWord : Line → Line
  | [] => []
  | ['\\'] => ['\\']
  | '\\' :: c :: rest =>
      if isWordChar c then '\\' :: stripEscapedNonWord (c :: rest)
      else stripEscapedNonWord rest
  | c :: rest => c :: stripEscapedNonWord rest

/-- `.replace(/\|.*$/g, '')` of the simplified-pattern fallback: delete from
the first `'|'` that is not followed by a line terminator (the host `.` does
not cross `'\n'` / `'\r'`, and `$` only matches at the very end). -/
def truncAtPipe : Line → Line
  | [] => []
  | c :: rest =>
      if c = '|' then
        if rest.contains '\n' || rest.contains '\r' then c :: truncAtPipe rest
        else []
      else c :: truncAtPipe rest

/-- JavaScript `String.prototype.trim` (ASCII whitespace). -/
def jsTrim (l : Line) : Line :=
  ((l.dropWhile isJsWs).reverse.dropWhile isJsWs).reverse

/-- The main conversion chain that builds `jsPattern` from the rule pattern:
POSIX character classes, `\<`/`\>` word boundaries, the `.*+` fix, the
trailing-backslash cleanup and the `|)` fix, then the final
`endsWith('\\')` strip.  The source also chains the self-replacements
`\b→\b`, `\s→\s`, `\w→\w`, `\d→\d` (identities, omitted here) and tests
`/^\[.*\]$/` purely for logging. -/
def primaryJsPattern (pattern : Line) : Line :=
  let p1 := replaceAll (("[[:space:]]").toList) (("\\s").toList) pattern
  let p2 := replaceAll (("[[:alpha:]]").toList) (("[A-Za-z]").toList) p1
  let p3 := replaceAll (("[[:alnum:]]").toList) (("[A-Za-z0-9]").toList) p2
  let p4 := replaceAll (("[[:digit:]]").toList) (("\\d").toList) p3
  let p5 := replaceAll (("\\<").toList) (("\\b").toList) p4
  let p6 := replaceAll (("\\>").toList) (("\\b").toList) p5
  let p7 := replaceAll ((".*+").toList) ((".*").toList) p6
  let p8 := stripBackslashWsEnd p7
  let p9 := fixPipeParen p8
  if p9.getLast? = some '\\' then p9.dropLast else p9

/-- The "simpler cleanup approach" applied to the original pattern when
`jsPattern` fails to compile. -/
def simplifiedPattern (pattern : Line) : Line :=
  truncAtPipe (stripEscapedNonWord (stripPosixClasses pattern))

/-- The five predefined string-pattern special cases checked up front. -/
def hasPredefined (pattern : Line) : Bool :=
  decide (dqPat <:+: pattern) || decide (sqPat <:+: pattern) ||
  decide (btPat <:+: pattern) || decide (escDqPat <:+: pattern) ||
  decide (escSqPat <:+: pattern)

/-- `NanorcService._convertNanorcRegex(pattern)` with the host engine's
pattern-validity test abstracted as `validRegex`.  Every branch returns a
string; no failure escapes (the outer `try` is unreachable). -/
def convertNanorcRegex (validRegex : Line → Bool) (pattern : Line) : Line :=
  if dqPat <:+: pattern then dqPat
  else if sqPat <:+: pattern then sqPat
  else if btPat <:+: pattern then btPat
  else if escDqPat <:+: pattern then dqPat
  else if escSqPat <:+: pattern then sqPat
  else if isSymbolOnly pattern then escapeSymbols pattern
  else
    let jsPattern := primaryJsPattern pattern
    if validRegex jsPattern then jsPattern
    else
      let simplified := simplifiedPattern pattern
      if (jsTrim simplified).isEmpty then bareWordPat
      else if validRegex simplified then simplified
      else bareWordPat

/-- The color-rule loop of `NanorcService._parseNanorc`: each parsed
`(regex, color)` pair is converted independently; a rule is pushed exactly
when the converted pattern is a non-empty (truthy) string. -/
def processRules (validRegex : Line → Bool) (rules : List (Line × Line)) : List (Line × Line) :=
  rules.filterMap (fun rc =>
    let jsRegex := convertNanorcRegex validRegex rc.1
    if jsRegex.isEmpty then none else some (jsRegex, rc.2))

/-! ### Helper lemmas about the JavaScript primitives -/

theorem take_min (l : Line) (n : Nat) : l.take (min n l.length) = l.take n := by
  rcases Nat.le_total n l.length with h | h
  · rw [Nat.min_eq_left h]
  · rw [Nat.min_eq_right h, List.take_length, List.take_of_length_le h]

theorem drop_min (l : Line) (n : Nat) : l.drop (min n l.length) = l.drop n := by
  rcases Nat.le_total n l.length with h | h
  · rw [Nat.min_eq_left h]
  · rw [Nat.min_eq_right h, List.drop_length, List.drop_of_length_le h]

theorem jsIdx_coe (len n : Nat) : jsIdx len (n : Int) = min n len := by
  simp [jsIdx]

theorem jsSlice_zero (s : Line) (x : Int) (hx : 0 ≤ x) :
    jsSlice s 0 x = s.take x.toNat := by
  unfold jsSlice
  rcases Int.eq_ofNat_of_zero_le hx with ⟨n, rfl⟩
  rw [show ((0 : Int)) = ((0 : Nat) : Int) from rfl, jsIdx_coe, jsIdx_coe]
  simp [take_min]

theorem jsSliceFrom_pos (s : Line) (x : Int) (hx : 0 ≤ x) :
    jsSliceFrom s x = s.drop x.toNat := by
  unfold jsSliceFrom jsSlice
  rcases Int.eq_ofNat_of_zero_le hx with ⟨n, rfl⟩
  rw [show ((s.length : Int)) = ((s.length : Nat) : Int) from rfl, jsIdx_coe, jsIdx_coe]
  simp [drop_min]

theorem jsGet_append (pre post : Buffer) (l : Line) :
    jsGet (pre ++ l :: post) (pre.length : Int) = some l := by
  unfold jsGet
  rw [if_pos (Int.ofNat_nonneg _)]
  simp [List.get?_eq_getElem?, List.getElem?_append_right, List.getElem_append_right]

theorem jsGet_neg (l : Buffer) (i : Int) (h : i < 0) : jsGet l i = none := by
  unfold jsGet
  rw [if_neg (by omega)]

theorem listSet_append (pre post : Buffer) (l v : Line) :
    (pre ++ l :: post).set pre.length v = pre ++ v :: post := by
  induction pre with
  | nil => simp
  | cons p ps ih => simpa [List.set] using ih

theorem jsSet_append (pre post : Buffer) (l v : Line) :
    jsSet (pre ++ l :: post) (pre.length : Int) v = pre ++ v :: post := by
  unfold jsSet
  rw [if_neg (by omega)]
  have hlen : (pre.length : Int).toNat < (pre ++ l :: post).length := by
    simp
  rw [if_pos hlen]
  simpa using listSet_append pre post l v

theorem jsSpliceRemove1_append (pre post : Buffer) (l : Line) :
    jsSpliceRemove1 (pre ++ l :: post) (pre.length : Int) = pre ++ post := by
  unfold jsSpliceRemove1
  rw [jsIdx_coe]
  have hmin : min pre.length (pre ++ l :: post).length = pre.length := by
    simp
  rw [hmin, List.take_left]
  have : (pre ++ l :: post).drop (pre.length + 1) = post := by
    rw [← List.drop_drop, List.drop_left]
    rfl
  rw [this]

theorem jsSpliceInsert_append (pre post : Buffer) (v : Line) :
    jsSpliceInsert (pre ++ post) (pre.length : Int) v = pre ++ v :: post := by
  unfold jsSpliceInsert
  rw [jsIdx_coe]
  have hmin : min pre.length (pre ++ post).length = pre.length := by
    simp
  rw [hmin, List.take_left, List.drop_left]

theorem jsGetD_append (pre post : Buffer) (l : Line) :
    jsGetD (pre ++ l :: post) (pre.length : Int) = l := by
  unfold jsGetD
  rw [jsGet_append]
  rfl

theorem padSpaces_le (line : Line) (x : Int) (h : x ≤ (line.length : Int)) :
    padSpaces line x = line := by
  unfold padSpaces
  have : (x - (line.length : Int)).toNat = 0 := by omega
  simp [this]

/-- `writeText` at a valid position: the ensure steps are no-ops and the line
is rewritten by splice (insert mode) or by range overwrite. -/
theorem writeText_valid (pre post : Buffer) (line text : Line) (x : Int)
    (hx : 0 ≤ x) (hxlen : x ≤ (line.length : Int)) (insert : Bool) :
    writeText (pre ++ line :: post) text x (pre.length : Int) insert =
      pre ++ (line.take x.toNat ++ text ++
        (if insert then line.drop x.toNat else line.drop (x.toNat + text.length))) :: post := by
  simp only [writeText, ensureCharacterExists, ensureLineExists]
  rw [if_neg (show ¬ ((pre.length : Int) < 0) from by omega)]
  rw [if_neg (show ¬ (((pre ++ line :: post).length : Int) ≤ (pre.length : Int)) from by
    simp only [List.length_append, List.length_cons]; omega)]
  rw [jsGetD_append, padSpaces_le line x hxlen, jsSet_append, jsGetD_append,
      jsSlice_zero line x hx, jsSliceFrom_pos line x hx]
  cases insert with
  | true =>
      rw [if_pos rfl, jsSet_append, if_pos rfl]
  | false =>
      rw [if_neg (by simp), jsSliceFrom_pos line (x + (text.length : Int)) (by omega),
          jsSet_append,
          show (x + (text.length : Int)).toNat = x.toNat + text.length from by omega,
          if_neg (by simp)]

/-! ### Claim C1 -/

theorem deleteChar_valid (st : Buffer) (pre post : Buffer) (line : Line) (x : Int)
    (hfd : st = pre ++ line :: post) (hx0 : 0 ≤ x) (hxlen : x < (line.length : Int)) :
    deleteChar st x (pre.length : Int) =
      pre ++ (line.take x.toNat ++ line.drop (x.toNat + 1)) :: post := by
  subst hfd
  unfold deleteChar
  rw [jsGet_append]
  simp only []
  rw [if_pos ⟨hx0, hxlen⟩, jsSet_append]

/-- Claim C1: with the absolute cursor column strictly positive (and within
the line, as the data model guarantees for a cursor position), backspace
removes the character before the cursor from the current line and moves the
cursor column left by one; with the absolute column strictly before
end-of-line, delete removes the character at the column and leaves the
cursor where it was. -/
theorem backspace_delete_remove_char (st : EditWindowState) (pre post : Buffer) (line : Line)
    (hfd : st.fileData = pre ++ line :: post) (hy : posY st = (pre.length : Int)) :
    (0 < posX st → posX st ≤ (line.length : Int) →
      handleBackspace st = { st with
        fileData := pre ++ (line.take ((posX st).toNat - 1) ++ line.drop (posX st).toNat) :: post,
        cursorX := st.cursorX - 1 })
    ∧ (0 ≤ posX st → posX st < (line.length : Int) →
      handleDelete st = { st with
        fileData := pre ++ (line.take (posX st).toNat ++ line.drop ((posX st).toNat + 1)) :: post }) := by
  constructor
  · intro h1 h2
    have hdel : deleteChar st.fileData (posX st - 1) (posY st) =
        pre ++ (line.take ((posX st).toNat - 1) ++ line.drop (posX st).toNat) :: post := by
      rw [hy]
      rw [deleteChar_valid st.fileData pre post line (posX st - 1) hfd (by omega) (by omega)]
      rw [show (posX st - 1).toNat = (posX st).toNat - 1 from by omega,
          show (posX st).toNat - 1 + 1 = (posX st).toNat from by omega]
    simp only [handleBackspace]
    rw [if_pos h1, hdel]
  · intro h1 h2
    have hdel : deleteChar st.fileData (posX st) (posY st) =
        pre ++ (line.take (posX st).toNat ++ line.drop ((posX st).toNat + 1)) :: post := by
      rw [hy]
      exact deleteChar_valid st.fileData pre post line (posX st) hfd h1 h2
    simp only [handleDelete, hfd, hy, jsGet_append]
    rw [if_pos h2]
    rw [show deleteChar (pre ++ line :: post) (posX st) (pre.length : Int) =
          pre ++ (line.take (posX st).toNat ++ line.drop ((posX st).toNat + 1)) :: post from
        deleteChar_valid _ pre post line _ rfl h1 h2]

/-- Witness for C1 at the buffer `["abc"]` with the cursor at column 1. -/
theorem backspace_delete_remove_char_witness :
    handleBackspace ⟨[['a', 'b', 'c']], 1, 0, 0, 0⟩ = ⟨[['b', 'c']], 0, 0, 0, 0⟩ ∧
    handleDelete ⟨[['a', 'b', 'c']], 1, 0, 0, 0⟩ = ⟨[['a', 'c']], 1, 0, 0, 0⟩ := by
  have h := backspace_delete_remove_char ⟨[['a', 'b', 'c']], 1, 0, 0, 0⟩ [] []
    ['a', 'b', 'c'] rfl rfl
  exact ⟨(h.1 (by decide) (by decide)).trans (by decide),
         (h.2 (by decide) (by decide)).trans (by decide)⟩

/-! ### Claim C2: the line count never drops below one -/

theorem jsIdx_le (len : Nat) (i : Int) : jsIdx len i ≤ len := by
  unfold jsIdx
  split
  · omega
  · exact Nat.min_le_right _ _

theorem jsSet_length_ge (l : Buffer) (i : Int) (v : Line) :
    l.length ≤ (jsSet l i v).length := by
  unfold jsSet
  split
  · exact Nat.le_refl _
  · split
    · simp
    · simp

theorem jsSpliceInsert_length (l : Buffer) (i : Int) (v : Line) :
    (jsSpliceInsert l i v).length = l.length + 1 := by
  unfold jsSpliceInsert
  have h := jsIdx_le l.length i
  simp only [List.length_append, List.length_take, List.length_cons, List.length_drop]
  omega

theorem jsSpliceRemove1_length_ge (l : Buffer) (i : Int)
    (hl : 1 ≤ l.length) (hi : 1 ≤ i) : 1 ≤ (jsSpliceRemove1 l i).length := by
  unfold jsSpliceRemove1
  have h := jsIdx_le l.length i
  have h1 : 1 ≤ jsIdx l.length i := by
    unfold jsIdx
    rw [if_neg (by omega)]
    omega
  simp only [List.length_append, List.length_take, List.length_drop]
  omega

theorem deleteChar_length (fd : Buffer) (x y : Int) :
    (deleteChar fd x y).length = fd.length := by
  unfold deleteChar
  cases hg : jsGet fd y with
  | none => rfl
  | some line =>
      simp only []
      split
      · unfold jsGet at hg
        split at hg
        case _ hy =>
          have hlt : y.toNat < fd.length := by
            by_contra hc
            rw [List.get?_eq_none.mpr (by omega)] at hg
            exact Option.noConfusion hg
          unfold jsSet
          rw [if_neg (by omega), if_pos hlt]
          simp
        case _ => exact Option.noConfusion hg
      · rfl

theorem ensureLineExists_length_ge (fd : Buffer) (y : Int) :
    fd.length ≤ (ensureLineExists fd y).length := by
  unfold ensureLineExists
  split
  · simp
  · exact Nat.le_refl _

theorem writeText_length_ge (fd : Buffer) (text : Line) (x y : Int) (insert : Bool) :
    fd.length ≤ (writeText fd text x y insert).length := by
  unfold writeText ensureCharacterExists
  split
  · exact Nat.le_refl _
  · have h1 := ensureLineExists_length_ge fd y
    have h2 := jsSet_length_ge (ensureLineExists fd y) y
      (padSpaces (jsGetD (ensureLineExists fd y) y) x)
    split
    · exact Nat.le_trans h1 (Nat.le_trans h2 (jsSet_length_ge _ y _))
    · exact Nat.le_trans h1 (Nat.le_trans h2 (jsSet_length_ge _ y _))

theorem adjustScrollForCursor_fileData (h : Int) (st : EditWindowState) :
    (adjustScrollForCursor h st).fileData = st.fileData := by
  unfold adjustScrollForCursor
  by_cases h1 : st.scrollOffsetY + h - 1 < st.cursorY <;>
    by_cases h2 : st.cursorY < st.scrollOffsetY <;>
      simp [h1, h2]

theorem handleBackspace_length_ge (st : EditWindowState)
    (h : 1 ≤ st.fileData.length) : 1 ≤ (handleBackspace st).fileData.length := by
  simp only [handleBackspace]
  split
  · simpa [deleteChar_length] using h
  case _ hx =>
    split
    case _ hy =>
      cases hprev : jsGet st.fileData (posY st - 1) with
      | none => simpa using h
      | some prev =>
          cases hcur : jsGet st.fileData (posY st) with
          | none => simpa using h
          | some cur =>
              simp only []
              have h1 : 1 ≤ (jsSpliceRemove1 st.fileData (posY st)).length :=
                jsSpliceRemove1_length_ge st.fileData (posY st) h (by omega)
              split
              · exact Nat.le_trans h1 (jsSet_length_ge _ _ _)
              · exact h1
    case _ => simpa using h

theorem handleDelete_length_ge (st : EditWindowState)
    (h : 1 ≤ st.fileData.length) : 1 ≤ (handleDelete st).fileData.length := by
  simp only [handleDelete]
  cases hcur : jsGet st.fileData (posY st) with
  | none => simpa using h
  | some cur =>
      simp only []
      split
      · simpa [deleteChar_length] using h
      · split
        case _ hy =>
          have hy0 : 0 ≤ posY st := by
            unfold jsGet at hcur
            split at hcur
            case _ h0 => exact h0
            case _ => exact Option.noConfusion hcur
          have h1 : 1 ≤ (jsSpliceRemove1 st.fileData (posY st + 1)).length :=
            jsSpliceRemove1_length_ge st.fileData (posY st + 1) h (by omega)
          split
          · exact Nat.le_trans h1 (jsSet_length_ge _ _ _)
          · exact h1
        case _ => simpa using h

theorem handleEnter_length_ge (h : Int) (st : EditWindowState) :
    1 ≤ (handleEnter h st).fileData.length := by
  simp only [handleEnter]
  rw [adjustScrollForCursor_fileData]
  simp only [jsSpliceInsert_length]
  omega

theorem pressChar_length_ge (insert : Bool) (seq : Line) (st : EditWindowState)
    (h : 1 ≤ st.fileData.length) : 1 ≤ (pressChar insert seq st).fileData.length := by
  simp only [pressChar]
  split
  · exact h
  · exact Nat.le_trans h (writeText_length_ge _ _ _ _ _)

theorem pasteInsertAux_length_ge (rem : List Line) (fd : Buffer) (base i : Int)
    (afterCursor : Line) :
    fd.length ≤ (pasteInsertAux fd base i rem afterCursor).length := by
  induction rem generalizing fd i with
  | nil => exact Nat.le_refl _
  | cons l rest ih =>
      unfold pasteInsertAux
      refine Nat.le_trans ?_ (ih _ _)
      rw [jsSpliceInsert_length]
      omega

theorem handlePaste_length_ge (h : Int) (insert : Bool) (clip : Line)
    (st : EditWindowState) (hlen : 1 ≤ st.fileData.length) :
    1 ≤ (handlePaste h insert clip st).fileData.length := by
  simp only [handlePaste]
  split
  · exact hlen
  · split
    · split
      · exact hlen
      · rw [adjustScrollForCursor_fileData]
        exact Nat.le_trans hlen (writeText_length_ge _ _ _ _ _)
    · rw [adjustScrollForCursor_fileData]
      dsimp only
      exact Nat.le_trans hlen (Nat.le_trans (jsSet_length_ge _ _ _)
        (pasteInsertAux_length_ge _ _ _ _ _))

theorem applyOp_length_ge (op : EditOp) (st : EditWindowState)
    (h : 1 ≤ st.fileData.length) : 1 ≤ (applyOp op st).fileData.length := by
  cases op with
  | write text x y insert => exact Nat.le_trans h (writeText_length_ge _ _ _ _ _)
  | char seq insert => exact pressChar_length_ge insert seq st h
  | backspace => exact handleBackspace_length_ge st h
  | del => exact handleDelete_length_ge st h
  | enter hh => exact handleEnter_length_ge hh st
  | paste clip insert hh => exact handlePaste_length_ge hh insert clip st h

/-- Claim C2: a buffer holding at least one line keeps at least one line
after any sequence of the editing operations (`writeText`, literal input,
backspace and delete — including the line joins they perform at column 0
and at end-of-line — enter, and paste). -/
theorem lineCount_ge_one (ops : List EditOp) (st : EditWindowState)
    (h : 1 ≤ st.fileData.length) : 1 ≤ (applyOps ops st).fileData.length := by
  induction ops generalizing st with
  | nil => exact h
  | cons op rest ih =>
      exact ih (applyOp op st) (applyOp_length_ge op st h)

/-- Witness for C2: a mixed operation sequence on the one-line buffer. -/
theorem lineCount_ge_one_witness :
    1 ≤ (applyOps
      [.char ['x'] true, .enter 5, .backspace, .del,
       .paste ['a', '\n', 'b'] true 5, .write ['z'] 0 0 false]
      ⟨[[]], 0, 0, 0, 0⟩).fileData.length :=
  lineCount_ge_one _ ⟨[[]], 0, 0, 0, 0⟩ (by decide)

/-! ### Claim C3: enter then backspace as a round trip -/

theorem removeCRLF_eq_self (l : Line) (h : ∀ ch ∈ l, ch ≠ '\r' ∧ ch ≠ '\n') :
    removeCRLF l = l := by
  unfold removeCRLF
  rw [List.filter_eq_self]
  intro a ha
  simp only [Bool.not_eq_true', Bool.or_eq_false_iff, decide_eq_false_iff_not]
  exact ⟨(h a ha).1, (h a ha).2⟩

theorem jsSpliceInsert_append_cons (pre post : Buffer) (b v : Line) :
    jsSpliceInsert (pre ++ b :: post) ((pre.length : Int) + 1) v = pre ++ b :: v :: post := by
  have h1 : pre ++ b :: post = (pre ++ [b]) ++ post := by simp
  have h2 : pre ++ b :: v :: post = (pre ++ [b]) ++ v :: post := by simp
  rw [h1, h2, show ((pre.length : Int) + 1) = (((pre ++ [b]).length : Nat) : Int) from by simp]
  exact jsSpliceInsert_append (pre ++ [b]) post v

theorem jsSpliceRemove1_append_cons (pre post : Buffer) (b l : Line) :
    jsSpliceRemove1 (pre ++ b :: l :: post) ((pre.length : Int) + 1) = pre ++ b :: post := by
  have h1 : pre ++ b :: l :: post = (pre ++ [b]) ++ l :: post := by simp
  have h2 : pre ++ b :: post = (pre ++ [b]) ++ post := by simp
  rw [h1, h2, show ((pre.length : Int) + 1) = (((pre ++ [b]).length : Nat) : Int) from by simp]
  exact jsSpliceRemove1_append (pre ++ [b]) post l

theorem jsGet_append_cons (pre post : Buffer) (b l : Line) :
    jsGet (pre ++ b :: l :: post) ((pre.length : Int) + 1) = some l := by
  have h1 : pre ++ b :: l :: post = (pre ++ [b]) ++ l :: post := by simp
  rw [h1, show ((pre.length : Int) + 1) = (((pre ++ [b]).length : Nat) : Int) from by simp]
  exact jsGet_append (pre ++ [b]) post l

/-- Claim C3 (amended): enter at `(r, c)` replaces line `r` by its prefix,
inserts the suffix at `r + 1` and moves the cursor to `(r + 1, 0)`; provided
the scroll offsets are zero and the new cursor row stays inside the viewport
(`r + 2 ≤ contentHeight`, so the scroll correction after enter does not
scroll), the subsequent backspace joins the lines back, the cursor returns
to `(r, c)`, and the whole state is restored. -/
theorem splitJoin_roundTrip (st : EditWindowState) (pre post : Buffer) (line : Line)
    (c h : Int)
    (hfd : st.fileData = pre ++ line :: post)
    (hsx : st.scrollOffsetX = 0) (hsy : st.scrollOffsetY = 0)
    (hcy : st.cursorY = (pre.length : Int)) (hcx : st.cursorX = c)
    (hc0 : 0 ≤ c) (hclen : c ≤ (line.length : Int))
    (hcrlf : ∀ ch ∈ line, ch ≠ '\r' ∧ ch ≠ '\n')
    (hh : (pre.length : Int) + 2 ≤ h) :
    handleEnter h st =
      { st with fileData := pre ++ line.take c.toNat :: line.drop c.toNat :: post,
                cursorX := 0, cursorY := (pre.length : Int) + 1 }
    ∧ handleBackspace (handleEnter h st) = st := by
  have hbefore : removeCRLF (jsSlice line 0 c) = line.take c.toNat := by
    rw [jsSlice_zero line c hc0]
    exact removeCRLF_eq_self _ (fun ch hch => hcrlf ch (List.mem_of_mem_take hch))
  have hafter : removeCRLF (jsSliceFrom line c) = line.drop c.toNat := by
    rw [jsSliceFrom_pos line c hc0]
    exact removeCRLF_eq_self _ (fun ch hch => hcrlf ch (List.mem_of_mem_drop hch))
  have henter : handleEnter h st =
      { st with fileData := pre ++ line.take c.toNat :: line.drop c.toNat :: post,
                cursorX := 0, cursorY := (pre.length : Int) + 1 } := by
    simp only [handleEnter, hfd, hcy, hcx, jsGetD_append, hbefore, hafter,
      jsSet_append, jsSpliceInsert_append_cons]
    unfold adjustScrollForCursor
    simp only [hsy]
    rw [if_neg (by omega), if_neg (by omega)]
  refine ⟨henter, ?_⟩
  rw [henter]
  have hx0 : posX { st with
      fileData := pre ++ line.take c.toNat :: line.drop c.toNat :: post,
      cursorX := (0 : Int), cursorY := (pre.length : Int) + 1 } = 0 := by
    simp [posX, hsx]
  have hy1 : posY { st with
      fileData := pre ++ line.take c.toNat :: line.drop c.toNat :: post,
      cursorX := (0 : Int), cursorY := (pre.length : Int) + 1 } = (pre.length : Int) + 1 := by
    simp [posY, hsy]
  simp only [handleBackspace, hx0, hy1]
  rw [if_neg (by omega), if_pos (by omega)]
  rw [show (pre.length : Int) + 1 - 1 = (pre.length : Int) from by omega]
  rw [jsGet_append, jsGet_append_cons]
  simp only []
  rw [jsSpliceRemove1_append_cons]
  have hlen_take : ((line.take c.toNat).length : Int) = c := by
    simp only [List.length_take]
    omega
  cases hdrop : line.drop c.toNat with
  | nil =>
      have hcfull : c.toNat = line.length := by
        have := congrArg List.length hdrop
        simp only [List.length_drop] at this
        simp only [List.length_nil] at this
        omega
      rw [if_neg (by simp [hdrop])]
      cases st with
      | mk fd cx cy sx sy =>
          simp only [EditWindowState.mk.injEq] at *
          refine ⟨?_, ?_, ?_, trivial, trivial⟩
          · rw [hfd, hcfull, List.take_length]
          · rw [hcx, ← hlen_take, hcfull, List.take_length]
            simp [hcfull]
          · rw [hcy]
  | cons d ds =>
      rw [if_pos (by simp [hdrop])]
      rw [← hdrop, jsSet_append, List.take_append_drop]
      cases st with
      | mk fd cx cy sx sy =>
          simp only [EditWindowState.mk.injEq] at *
          exact ⟨hfd.symm, by rw [hcx, hlen_take], by rw [hcy], trivial, trivial⟩

/-- Counterexample to C3 as stated: on the buffer
`["a","b","cd","e","f","g"]` with the cursor at `(2, 1)`, scroll offsets
zero and a content height of 3, enter moves the cursor to `(3, 0)` but also
scrolls the viewport; the subsequent backspace then joins lines 3 and 4 of
the new buffer instead of undoing the split, so the round trip does not
restore the buffer. -/
theorem splitJoin_roundTrip_cex :
    handleBackspace (handleEnter 3
        ⟨[['a'], ['b'], ['c', 'd'], ['e'], ['f'], ['g']], 1, 2, 0, 0⟩) ≠
      ⟨[['a'], ['b'], ['c', 'd'], ['e'], ['f'], ['g']], 1, 2, 0, 0⟩ := by
  decide

/-- Witness for the amended C3: splitting `"ab"` at `(0, 1)` with viewport
height 5 and joining back restores the state. -/
theorem splitJoin_roundTrip_witness :
    handleBackspace (handleEnter 5 ⟨[['a', 'b']], 1, 0, 0, 0⟩) =
      ⟨[['a', 'b']], 1, 0, 0, 0⟩ :=
  (splitJoin_roundTrip ⟨[['a', 'b']], 1, 0, 0, 0⟩ [] [] ['a', 'b'] 1 5
    rfl rfl rfl rfl rfl (by decide) (by decide) (by decide) (by decide)).2

/-! ### Claim C4: page moves and the scroll range -/

/-- Counterexample to C4 as stated: on a one-line buffer with the cursor at
`(0, 0)` and a viewport height of 4, page-down sets
`scrollRow = min(max(0, 1 - 4), 0 - 2) = -2`, which is negative — the
page-down recentering is clamped only from above, not to the valid scroll
range. -/
theorem pageMoves_cex :
    (handlePageDown 4 ⟨[['a']], 0, 0, 0, 0⟩).scrollOffsetY < 0 := by
  decide

/-- Claim C4 (amended): a page move steps the cursor row by
`max(1, floor(0.9 * viewportHeight))` clamped to the buffer bounds.
Page-up then sets `scrollRow = max(0, cursorRow - floor(h/2))`, which is
always non-negative (but is not clamped from above).  Page-down sets
`scrollRow = min(max(0, lineCount - h), cursorRow - floor(h/2))`, with no
lower clamp; when the new cursor row is at least `floor(h/2)` this agrees
with the claimed recentering formula and is non-negative. -/
theorem pageMoves_amended (h : Int) (st : EditWindowState)
    (hcond : Int.ediv h 2 ≤ min ((st.fileData.length : Int) - 1) (st.cursorY + pageStep h)) :
    0 ≤ (handlePageUp h st).scrollOffsetY
    ∧ (handlePageUp h st).cursorY = max 0 (st.cursorY - pageStep h)
    ∧ (handlePageUp h st).scrollOffsetY =
        max 0 ((handlePageUp h st).cursorY - Int.ediv h 2)
    ∧ (handlePageDown h st).cursorY = min ((st.fileData.length : Int) - 1) (st.cursorY + pageStep h)
    ∧ (handlePageDown h st).scrollOffsetY =
        min (max 0 ((st.fileData.length : Int) - h))
          (max 0 ((handlePageDown h st).cursorY - Int.ediv h 2))
    ∧ 0 ≤ (handlePageDown h st).scrollOffsetY := by
  unfold handlePageUp handlePageDown
  dsimp only
  refine ⟨?_, ?_, ?_, ?_, ?_, ?_⟩ <;> first
    | rfl
    | omega

/-- Witness for the amended C4 on a ten-line buffer, cursor row 5, viewport
height 4. -/
theorem pageMoves_amended_witness :
    0 ≤ (handlePageDown 4 ⟨List.replicate 10 [], 0, 5, 0, 0⟩).scrollOffsetY :=
  (pageMoves_amended 4 ⟨List.replicate 10 [], 0, 5, 0, 0⟩ (by decide)).2.2.2.2.2

/-! ### Claim C5: accepted highlight spans never overlap -/

theorem selectAux_not_overlapping (ms : List HMatch) :
    ∀ used, ∀ m ∈ selectAux ms used, ∀ r ∈ used, overlapsRange m r = false := by
  induction ms with
  | nil => intro used m hm; exact absurd hm (by simp [selectAux])
  | cons m0 rest ih =>
      intro used m hm r hr
      unfold selectAux at hm
      split at hm
      · exact ih used m hm r hr
      case _ hany =>
        rcases List.mem_cons.mp hm with rfl | hmem
        · simpa using (List.any_eq_false.mp (Bool.eq_false_iff.mpr hany)) r hr
        · exact ih _ m hmem r (List.mem_append_left _ hr)

theorem selectAux_pairwise (ms : List HMatch) :
    ∀ used, (selectAux ms used).Pairwise SpanDisjoint := by
  induction ms with
  | nil => intro used; simp [selectAux]
  | cons m0 rest ih =>
      intro used
      unfold selectAux
      split
      · exact ih used
      · refine List.Pairwise.cons ?_ (ih _)
        intro m hm
        have h := selectAux_not_overlapping rest _ m hm (m0.start, m0.stop)
          (List.mem_append_right _ (by simp))
        unfold overlapsRange at h
        simp only [Bool.and_eq_false_iff, decide_eq_false_iff_not, Nat.not_lt] at h
        unfold SpanDisjoint
        omega

/-- Claim C5: for every rule set, host-engine match function and line, the
spans accepted by the highlight matcher are pairwise non-overlapping; and on
the ruleset `("abc","red"), ("abcdef","blue")` applied to the line
`"abcdef"` the matcher accepts exactly the single span
`{start 0, end 6, "blue"}` (the longer match wins the tie). -/
theorem styleSpans_disjoint :
    (∀ (execRule : Line → Line → List (Nat × Line)) (patterns : List (Line × Line)) (line : Line),
      (styleMatchesWith execRule patterns line).Pairwise SpanDisjoint)
    ∧ styleMatchesWith execLiteral
        [(("abc").toList, ("red").toList), (("abcdef").toList, ("blue").toList)]
        (("abcdef").toList) =
      [{ start := 0, stop := 6, text := ("abcdef").toList, color := ("blue").toList }] := by
  constructor
  · intro execRule patterns line
    exact selectAux_pairwise _ []
  · decide

/-! ### Claim C6: `writeText` pads and then splices or overwrites -/

theorem writeText_valid_gen (pre post : Buffer) (line text : Line) (x : Int)
    (hx : 0 ≤ x) (insert : Bool) :
    writeText (pre ++ line :: post) text x (pre.length : Int) insert =
      pre ++ ((padSpaces line x).take x.toNat ++ text ++
        (if insert then (padSpaces line x).drop x.toNat
         else (padSpaces line x).drop (x.toNat + text.length))) :: post := by
  simp only [writeText, ensureCharacterExists, ensureLineExists]
  rw [if_neg (show ¬ ((pre.length : Int) < 0) from by omega)]
  rw [if_neg (show ¬ (((pre ++ line :: post).length : Int) ≤ (pre.length : Int)) from by
    simp only [List.length_append, List.length_cons]; omega)]
  rw [jsGetD_append, jsSet_append, jsGetD_append,
      jsSlice_zero _ x hx, jsSliceFrom_pos _ x hx]
  cases insert with
  | true => rw [if_pos rfl, jsSet_append, if_pos rfl]
  | false =>
      rw [if_neg (by simp), jsSliceFrom_pos _ (x + (text.length : Int)) (by omega),
          jsSet_append,
          show (x + (text.length : Int)).toNat = x.toNat + text.length from by omega,
          if_neg (by simp)]

theorem writeText_extends (fd : Buffer) (text : Line) (x y : Int) (insert : Bool)
    (hx : 0 ≤ x) (hy : (fd.length : Int) ≤ y) :
    writeText fd text x y insert =
      fd ++ List.replicate (y.toNat - fd.length) [] ++ [List.replicate x.toNat ' ' ++ text] := by
  obtain ⟨k, hk⟩ : ∃ k, y.toNat - fd.length = k := ⟨_, rfl⟩
  have hshape : ensureLineExists fd y =
      (fd ++ List.replicate k []) ++ ([] : Line) :: ([] : Buffer) := by
    unfold ensureLineExists
    rw [if_pos hy]
    rw [show (y + 1 - fd.length).toNat = k + 1 from by omega, List.replicate_succ']
    simp
  have hprelen : (((fd ++ List.replicate k []).length : Nat) : Int) = y := by
    simp only [List.length_append, List.length_replicate]
    omega
  rw [hk]
  simp only [writeText, ensureCharacterExists]
  rw [if_neg (by omega), hshape]
  generalize hpre : fd ++ List.replicate k [] = pre at hprelen ⊢
  rw [← hprelen, jsGetD_append, jsSet_append, jsGetD_append]
  have hpad : padSpaces ([] : Line) x = List.replicate x.toNat ' ' := by
    simp [padSpaces]
  rw [hpad, jsSlice_zero _ x hx, jsSliceFrom_pos _ x hx]
  have htake : (List.replicate x.toNat ' ').take x.toNat = List.replicate x.toNat ' ' := by
    simp
  have hdrop : (List.replicate x.toNat ' ').drop x.toNat = ([] : Line) := by
    simp
  have hdrop2 : ∀ n : Nat, (List.replicate x.toNat ' ').drop (x.toNat + n) = ([] : Line) := by
    intro n
    apply List.drop_eq_nil_of_le
    simp
  cases insert <;>
    simp [jsSliceFrom_pos _ (x + (text.length : Int)) (by omega : (0:Int) ≤ x + (text.length : Int)),
          show (x + (text.length : Int)).toNat = x.toNat + text.length from by omega,
          htake, hdrop, hdrop2, jsSet_append]

/-- Claim C6: `writeText(text, column, row, insert)` first pads the buffer
with empty lines until `row` is a valid index (never truncating) and
right-pads the target line with spaces up to `column`; with the insert flag
it then splices `text` in at `column`, shifting the remainder right, and
otherwise it replaces exactly the characters of
`[column, column + len(text))`, extending the line when `text` runs past the
end.  Stated for a valid row (`row = pre.length`) and for a row at or past
the end of the buffer. -/
theorem writeText_pads_then_writes :
    (∀ (pre post : Buffer) (line text : Line) (x : Int) (insert : Bool), 0 ≤ x →
      writeText (pre ++ line :: post) text x (pre.length : Int) insert =
        pre ++ ((padSpaces line x).take x.toNat ++ text ++
          (if insert then (padSpaces line x).drop x.toNat
           else (padSpaces line x).drop (x.toNat + text.length))) :: post)
    ∧ (∀ (fd : Buffer) (text : Line) (x y : Int) (insert : Bool),
        0 ≤ x → (fd.length : Int) ≤ y →
      writeText fd text x y insert =
        fd ++ List.replicate (y.toNat - fd.length) [] ++ [List.replicate x.toNat ' ' ++ text]) :=
  ⟨fun pre post line text x insert hx => writeText_valid_gen pre post line text x hx insert,
   fun fd text x y insert hx hy => writeText_extends fd text x y insert hx hy⟩

/-- Witness for C6: overwriting inside `["ab"]` at column 1 and inserting at
row 2, column 2 of the same one-line buffer. -/
theorem writeText_pads_then_writes_witness :
    writeText [['a', 'b']] ['z', 'w'] 1 0 false = [['a', 'z', 'w']] ∧
    writeText [['a', 'b']] ['z'] 2 2 true = [['a', 'b'], [], [' ', ' ', 'z']] := by
  constructor
  · exact (writeText_pads_then_writes.1 [] [] ['a', 'b'] ['z', 'w'] 1 false
      (by decide)).trans (by decide)
  · exact (writeText_pads_then_writes.2 [['a', 'b']] ['z'] 2 2 true
      (by decide) (by decide)).trans (by decide)

/-! ### Claim C7: layout rectangles -/

/-- Counterexample to C7 as stated: on a 100×10 screen with menu-bar height
1, a `FileExplorer` requesting width 200 is not clamped, and the other
pane's width becomes `100 - 200 = -100`. -/
theorem recalculateLayout_cex :
    ¬ (∀ r ∈ recalculateLayout 100 10 1
        [{ kind := .fileExplorer, width := some 200 }, { kind := .other }],
        0 ≤ r.width ∧ 0 ≤ r.height) := by
  decide

/-- Claim C7 (amended): the layout never clamps a requested size — a
`FileExplorer` keeps its requested width (default 30) and an `AIPrompt` its
requested height (default 3) even when they exceed the screen, and the other
panes receive the left-over extent, which can be negative.  All computed
rectangles have non-negative width and height provided the requested sizes
are non-negative and fit: the effective file-explorer width is at most the
screen width and the effective AI-prompt height at most the screen height
minus the menu bar. -/
theorem recalculateLayout_amended (screenW screenH menuBarHeight : Int) (wins : List WinDesc)
    (hmh : menuBarHeight ≤ screenH) (hW : 0 ≤ screenW)
    (hfe : ∀ w ∈ wins, w.kind = .fileExplorer → 0 ≤ w.width.getD 30)
    (hai : ∀ w ∈ wins, w.kind = .aiPrompt → 0 ≤ w.height.getD 3)
    (hfit : feWidth wins ≤ screenW)
    (haifit : aiHeight wins ≤ screenH - menuBarHeight) :
    ∀ r ∈ recalculateLayout screenW screenH menuBarHeight wins,
      0 ≤ r.width ∧ 0 ≤ r.height := by
  intro r hr
  rcases List.mem_map.mp hr with ⟨w, hw, rfl⟩
  unfold rectFor
  cases hkind : w.kind with
  | fileExplorer =>
      dsimp only
      refine ⟨hfe w hw hkind, by omega⟩
  | aiPrompt =>
      dsimp only
      refine ⟨by omega, hai w hw hkind⟩
  | other =>
      dsimp only
      constructor
      · split
        · omega
        · omega
      · split
        · omega
        · omega

/-- Witness for the amended C7: on a 100×10 screen with a 30-wide explorer,
a default-height prompt and one editor pane, the editor pane's rectangle
(30, 1, 70×6) has non-negative extent. -/
theorem recalculateLayout_amended_witness :
    0 ≤ ({ left := 30, top := 1, width := 70, height := 6 } : Rect).width ∧
    0 ≤ ({ left := 30, top := 1, width := 70, height := 6 } : Rect).height :=
  recalculateLayout_amended 100 10 1
    [{ kind := .fileExplorer, width := some 30 }, { kind := .aiPrompt }, { kind := .other }]
    (by decide) (by decide) (by decide) (by decide) (by decide) (by decide)
    { left := 30, top := 1, width := 70, height := 6 } (by decide)

/-! ### Claim C8: paste -/

theorem adjustScrollForCursor_cursorX (h : Int) (st : EditWindowState) :
    (adjustScrollForCursor h st).cursorX = st.cursorX := by
  unfold adjustScrollForCursor
  by_cases h1 : st.scrollOffsetY + h - 1 < st.cursorY <;>
    by_cases h2 : st.cursorY < st.scrollOffsetY <;>
      simp [h1, h2]

theorem adjustScrollForCursor_cursorY (h : Int) (st : EditWindowState) :
    (adjustScrollForCursor h st).cursorY = st.cursorY := by
  unfold adjustScrollForCursor
  by_cases h1 : st.scrollOffsetY + h - 1 < st.cursorY <;>
    by_cases h2 : st.cursorY < st.scrollOffsetY <;>
      simp [h1, h2]

/-- The interior payload lines with the original suffix attached to the last
one: the cumulative effect of the insertion loop of `_handlePaste`. -/
def attachLast (rem : List Line) (afterCursor : Line) : List Line :=
  match rem with
  | [] => []
  | [l] => [l ++ afterCursor]
  | l :: rest => l :: attachLast rest afterCursor

theorem attachLast_concat (mid : List Line) (last afterCursor : Line) :
    attachLast (mid ++ [last]) afterCursor = mid ++ [last ++ afterCursor] := by
  induction mid with
  | nil => rfl
  | cons m rest ih =>
      have hstep : attachLast ((m :: rest) ++ [last]) afterCursor =
          m :: attachLast (rest ++ [last]) afterCursor := by
        cases rest with
        | nil => rfl
        | cons r rs => rfl
      rw [hstep, ih]
      rfl

theorem pasteInsertAux_append (rem : List Line) :
    ∀ (A B : Buffer) (base i : Int) (afterCursor : Line),
      (A.length : Int) = base + i + 1 →
      pasteInsertAux (A ++ B) base i rem afterCursor =
        A ++ attachLast rem afterCursor ++ B := by
  induction rem with
  | nil => intro A B base i afterCursor _; simp [pasteInsertAux, attachLast]
  | cons l rest ih =>
      intro A B base i afterCursor hA
      simp only [pasteInsertAux]
      rw [show base + i + 1 = ((A.length : Nat) : Int) from hA.symm, jsSpliceInsert_append]
      have hstep : A ++ (l ++ if rest.isEmpty then afterCursor else []) :: B =
          (A ++ [l ++ if rest.isEmpty then afterCursor else []]) ++ B := by
        simp
      rw [hstep, ih _ _ base (i + 1) afterCursor (by simp; omega)]
      cases rest with
      | nil => simp [attachLast]
      | cons r rs => simp [attachLast]

theorem splitCRLF_no_newline (clip : Line) (h : ¬ '\n' ∈ clip) :
    splitCRLF clip = [clip] := by
  unfold splitCRLF
  have hsp : clip.splitOn '\n' = [clip] := by
    unfold List.splitOn
    apply List.splitOnP_eq_single
    intro x hx
    simp only [beq_iff_eq]
    intro he
    exact h (he ▸ hx)
  rw [hsp]
  rfl

theorem adjustScrollForCursor_id (h : Int) (st : EditWindowState)
    (h1 : st.cursorY ≤ st.scrollOffsetY + h - 1)
    (h2 : st.scrollOffsetY ≤ st.cursorY) :
    adjustScrollForCursor h st = st := by
  unfold adjustScrollForCursor
  rw [if_neg (by omega), if_neg (by omega)]

/-- Counterexample to C8 as stated: pasting the three-line payload
`"x\nm\ny"` into `["ab"]` at cursor `(1, 0)`, scroll offsets zero, content
height 1.  The payload lines land on buffer rows 0–2 as the claim says
(the last inserted line is row 2), but the post-paste scroll correction sets
`scrollOffsetY = 2`, so the absolute cursor position — `cursor + scroll`,
the coordinate every subsequent edit acts at — ends at row 4, past the end
of the buffer; the cursor does not end at the end of the last inserted
line. -/
theorem paste_single_and_multi_cex :
    (handlePaste 1 true ['x', '\n', 'm', '\n', 'y'] ⟨[['a', 'b']], 1, 0, 0, 0⟩).fileData =
      [['a', 'x'], ['m'], ['y', 'b']]
    ∧ posY (handlePaste 1 true ['x', '\n', 'm', '\n', 'y'] ⟨[['a', 'b']], 1, 0, 0, 0⟩) = 4 := by
  decide

/-- Claim C8 (amended): with zero scroll offsets, a data-model-valid cursor
and the viewport tall enough that the post-paste scroll correction does not
scroll (`r + 1 ≤ contentHeight` for a single-line payload,
`r + n ≤ contentHeight` for an `n`-line payload, `n = mid.length + 2`), a
single-line payload is written at the cursor through `writeText` in the
current insert/overwrite mode and the cursor column advances by its length;
a multi-line payload splits the current line at the cursor, attaches the
first payload line to the prefix, inserts the interior payload lines,
attaches the last payload line to the original suffix, and the cursor —
stored and absolute alike, the scroll staying zero — ends at
`(r + n - 1, len(last payload line))`. -/
theorem paste_single_and_multi (st : EditWindowState) (pre post : Buffer) (line : Line)
    (c h : Int) (insert : Bool) (clip : Line)
    (hfd : st.fileData = pre ++ line :: post)
    (hsx : st.scrollOffsetX = 0) (hsy : st.scrollOffsetY = 0)
    (hcy : st.cursorY = (pre.length : Int)) (hcx : st.cursorX = c)
    (hc0 : 0 ≤ c) (hclen : c ≤ (line.length : Int)) :
    (clip ≠ [] → ¬ '\n' ∈ clip → (pre.length : Int) + 1 ≤ h →
      handlePaste h insert clip st =
        { st with fileData := pre ++ (line.take c.toNat ++ clip ++
            (if insert then line.drop c.toNat else line.drop (c.toNat + clip.length))) :: post,
                  cursorX := c + clip.length })
    ∧ (∀ first mid last, splitCRLF clip = first :: mid ++ [last] →
        (pre.length : Int) + mid.length + 2 ≤ h →
      handlePaste h insert clip st =
        { st with fileData :=
            pre ++ (line.take c.toNat ++ first) :: (mid ++ [last ++ line.drop c.toNat]) ++ post,
                  cursorX := (last.length : Int),
                  cursorY := (pre.length : Int) + mid.length + 1 }) := by
  have hpx : posX st = c := by simp [posX, hcx, hsx]
  have hpy : posY st = (pre.length : Int) := by simp [posY, hcy, hsy]
  constructor
  · intro hne hnl hh1
    have hlen1 : (splitCRLF clip).length = 1 := by rw [splitCRLF_no_newline clip hnl]; rfl
    simp only [handlePaste, hpx, hpy]
    rw [if_neg (by simpa using hne), if_pos hlen1,
        if_neg (show ¬ ((pre.length : Int) < 0) from by omega)]
    refine Eq.trans (adjustScrollForCursor_id h _ ?_ ?_) ?_
    · dsimp only
      rw [hcy, hsy]
      omega
    · dsimp only
      rw [hcy, hsy]
      omega
    · rw [hfd, writeText_valid pre post line clip c hc0 hclen insert, hcx]
  · intro first mid last hsplit hh2
    have hne : clip ≠ [] := by
      intro he
      rw [he, show splitCRLF [] = [[]] from rfl] at hsplit
      have hcl := congrArg List.length hsplit
      simp at hcl
    have hlenne : ¬ ((splitCRLF clip).length = 1) := by
      rw [hsplit]
      simp
    have hgl : (mid ++ [last]).getLast? = some last := by
      simp [List.getLast?_concat]
    simp only [handlePaste, hpx, hpy]
    rw [if_neg (by simpa using hne), if_neg hlenne, hsplit]
    simp only [List.cons_append, List.headD_cons, List.tail_cons, hgl]
    rw [hfd, jsGetD_append, jsSlice_zero _ c hc0, jsSliceFrom_pos _ c hc0, jsSet_append]
    have hshape : pre ++ (line.take c.toNat ++ first) :: post =
        (pre ++ [line.take c.toNat ++ first]) ++ post := by
      simp
    rw [hshape, pasteInsertAux_append (mid ++ [last]) _ post (pre.length : Int) 0 _
      (by simp), attachLast_concat]
    refine Eq.trans (adjustScrollForCursor_id h _ ?_ ?_) ?_
    · dsimp only
      rw [hcy, hsy]
      simp only [List.length_append, List.length_cons, List.length_nil]
      push_cast
      omega
    · dsimp only
      rw [hcy, hsy]
      simp only [List.length_append, List.length_cons, List.length_nil]
      push_cast
      omega
    · have hA : (pre ++ [line.take c.toNat ++ first]) ++
          (mid ++ [last ++ line.drop c.toNat]) ++ post =
          pre ++ (line.take c.toNat ++ first) :: (mid ++ [last ++ line.drop c.toNat]) ++ post := by
        simp
      have hB : st.cursorY + (((mid ++ [last]).length : Nat) : Int) =
          (pre.length : Int) + mid.length + 1 := by
        rw [hcy]
        simp only [List.length_append, List.length_cons, List.length_nil]
        push_cast
        ring
      rw [hA, hB]

/-- Witness for the amended C8: pasting `"xy"` and `"x\nm\ny"` into `["ab"]`
at `(0, 1)` in insert mode with viewport height 5. -/
theorem paste_single_and_multi_witness :
    handlePaste 5 true ['x', 'y'] ⟨[['a', 'b']], 1, 0, 0, 0⟩ =
      ⟨[['a', 'x', 'y', 'b']], 3, 0, 0, 0⟩
    ∧ handlePaste 5 true ['x', '\n', 'm', '\n', 'y'] ⟨[['a', 'b']], 1, 0, 0, 0⟩ =
      ⟨[['a', 'x'], ['m'], ['y', 'b']], 1, 2, 0, 0⟩ := by
  have h := paste_single_and_multi ⟨[['a', 'b']], 1, 0, 0, 0⟩ [] [] ['a', 'b'] 1 5 true
  constructor
  · exact ((h ['x', 'y'] rfl rfl rfl rfl rfl (by decide) (by decide)).1
      (by decide) (by decide) (by decide)).trans (by decide)
  · exact ((h ['x', '\n', 'm', '\n', 'y'] rfl rfl rfl rfl rfl (by decide) (by decide)).2
      ['x'] [['m']] ['y'] (by decide) (by decide)).trans (by decide)

/-! ### Claim C9: pattern-conversion failure and the bare-word fallback -/

/-- Claim C9: pattern translation is a total function (the embedding has no
failure path, matching the source where every branch returns a string): a
pattern that cannot be converted — none of the predefined string special
cases apply, it is not the all-symbols special case, and both the primary
translation and the simplified fallback fail the host validity test (or the
simplified pattern trims to empty) — is replaced by the generic bare-word
fallback `\b\w+\b`, and the rule loading loop still loads every other rule
of the ruleset unchanged around it. -/
theorem conversion_fallback_and_loading (valid : Line → Bool) (pat col : Line)
    (rules1 rules2 : List (Line × Line))
    (h1 : ¬ (dqPat <:+: pat)) (h2 : ¬ (sqPat <:+: pat)) (h3 : ¬ (btPat <:+: pat))
    (h4 : ¬ (escDqPat <:+: pat)) (h5 : ¬ (escSqPat <:+: pat))
    (h6 : isSymbolOnly pat = false)
    (h7 : valid (primaryJsPattern pat) = false)
    (h8 : (jsTrim (simplifiedPattern pat)).isEmpty = true ∨
          valid (simplifiedPattern pat) = false) :
    convertNanorcRegex valid pat = bareWordPat
    ∧ processRules valid (rules1 ++ (pat, col) :: rules2) =
        processRules valid rules1 ++ (bareWordPat, col) :: processRules valid rules2 := by
  have hconv : convertNanorcRegex valid pat = bareWordPat := by
    unfold convertNanorcRegex
    rw [if_neg h1, if_neg h2, if_neg h3, if_neg h4, if_neg h5,
        if_neg (by simp [h6]), if_neg (by simp [h7])]
    rcases h8 with h8 | h8
    · rw [if_pos h8]
    · by_cases htrim : (jsTrim (simplifiedPattern pat)).isEmpty = true
      · rw [if_pos htrim]
      · rw [if_neg htrim, if_neg (by simp [h8])]
  refine ⟨hconv, ?_⟩
  unfold processRules
  rw [List.filterMap_append, List.filterMap_cons]
  simp only [hconv]
  rw [if_neg (by decide)]

/-- Witness for C9: a conversion-rejecting oracle on the plain pattern
`"abc"`, surrounded by two other rules. -/
theorem conversion_fallback_and_loading_witness :
    convertNanorcRegex (fun _ => false) (("abc").toList) = bareWordPat
    ∧ processRules (fun _ => false)
        ([((("x").toList), (("red").toList))] ++
          ((("abc").toList), (("blue").toList)) ::
          [((("y").toList), (("green").toList))]) =
        processRules (fun _ => false) [((("x").toList), (("red").toList))] ++
          (bareWordPat, (("blue").toList)) ::
          processRules (fun _ => false) [((("y").toList), (("green").toList))] :=
  conversion_fallback_and_loading (fun _ => false) (("abc").toList) (("blue").toList)
    [((("x").toList), (("red").toList))] [((("y").toList), (("green").toList))]
    (by decide) (by decide) (by decide) (by decide) (by decide)
    (by decide) (by decide) (Or.inr (by decide))

/-! ### Claim C10: indentation arithmetic -/

/-- Claim C10: in tabs-as-spaces mode with a positive indent size, the
indentation string consists of between 1 and `indentSize` space characters,
and adding its length to the column lands exactly on the smallest multiple
of `indentSize` strictly greater than the column. -/
theorem getIndentation_spec (indentSize column : Nat) (hs : 0 < indentSize) :
    1 ≤ (getIndentation indentSize column).length
    ∧ (getIndentation indentSize column).length ≤ indentSize
    ∧ (column + (getIndentation indentSize column).length) % indentSize = 0
    ∧ (∀ m, column < m → m % indentSize = 0 →
        column + (getIndentation indentSize column).length ≤ m)
    ∧ getIndentation indentSize column =
        List.replicate (getIndentation indentSize column).length ' ' := by
  have hnum : column + 1 + indentSize - 1 = column + indentSize := by omega
  have hlen : (getIndentation indentSize column).length =
      ((column + indentSize) / indentSize) * indentSize - column := by
    unfold getIndentation
    simp only [List.length_replicate, hnum]
  have hdm : indentSize * ((column + indentSize) / indentSize) +
      (column + indentSize) % indentSize = column + indentSize :=
    Nat.div_add_mod _ _
  have hmod : (column + indentSize) % indentSize < indentSize := Nat.mod_lt _ hs
  have hcomm : indentSize * ((column + indentSize) / indentSize) =
      ((column + indentSize) / indentSize) * indentSize := Nat.mul_comm _ _
  have hle : ((column + indentSize) / indentSize) * indentSize ≤ column + indentSize := by
    omega
  have hgt : column < ((column + indentSize) / indentSize) * indentSize := by
    omega
  refine ⟨by omega, by omega, ?_, ?_, ?_⟩
  · have : column + (getIndentation indentSize column).length =
        ((column + indentSize) / indentSize) * indentSize := by omega
    rw [this]
    exact Nat.mul_mod_left _ _
  · intro m hm hmod
    have hk : m / indentSize * indentSize = m := Nat.div_mul_cancel (Nat.dvd_of_mod_eq_zero hmod)
    rcases Nat.lt_or_ge (m / indentSize) ((column + indentSize) / indentSize) with hlt | hge
    · exfalso
      have h4 : m / indentSize + 1 ≤ (column + indentSize) / indentSize := hlt
      have h5 : (m / indentSize + 1) * indentSize ≤
          ((column + indentSize) / indentSize) * indentSize :=
        Nat.mul_le_mul_right _ h4
      have h6 : (m / indentSize + 1) * indentSize = m / indentSize * indentSize + indentSize :=
        Nat.succ_mul _ _
      omega
    · have h5 : ((column + indentSize) / indentSize) * indentSize ≤
          m / indentSize * indentSize := Nat.mul_le_mul_right _ hge
      omega
  · unfold getIndentation
    simp

/-- Witness for C10 at column 6 with indent size 4 (two spaces reach the
next stop, 8). -/
theorem getIndentation_spec_witness :
    (getIndentation 4 6).length ≤ 4 ∧ (6 + (getIndentation 4 6).length) % 4 = 0 :=
  ⟨(getIndentation_spec 4 6 (by decide)).2.1,
   (getIndentation_spec 4 6 (by decide)).2.2.1⟩

end TurboNano
